import Mathlib

/-!
Shallow embedding of the GoSheet spreadsheet core (cell store, eviction,
structural edits, persistence round trip, numeric coercion, string functions,
division-like trig functions, validation rules), with theorems checking the
natural-language specification against the code.

Conventions of the embedding:
* Go `map[[2]int]*cell.Cell` stores are modelled as association lists
  `List ((Int × Int) × Cell)`; iterating a Go map while deleting entries is
  modelled as `List.filter` over the original entries.
* Go `int32`/`int` coordinates are modelled as `Int` (no claim here depends on
  overflow), `float64` values as `ℚ` with exact decimal constants.
* Go `*string` fields are modelled as `Option String` (`none` = nil pointer).
* Fallible Go code returns `Option`/`Except`; a Go runtime panic (nil
  dereference) is modelled as `none`.
-/

namespace GoSheet

/-- Modelled from the spec: the `cell` package is not under `src/`; its RGB
color type (a "color pair" of foreground/background per cell, §3) is a triple
of channel values. `utils.ColorOptions["White"]` is (255,255,255) and
`utils.ColorOptions["Black"]` is (0,0,0), per the literals compared against in
`isEmptyCell` (table.go) and the defaults built in `openTxtFile`. -/
structure RGB where
  r : Int
  g : Int
  b : Int
deriving DecidableEq, Repr

/-- The default foreground color, `utils.ColorOptions["White"]`. -/
def colorWhite : RGB := ⟨255, 255, 255⟩

/-- The default background color, `utils.ColorOptions["Black"]`. -/
def colorBlack : RGB := ⟨0, 0, 0⟩

/-- Modelled from the spec: the `cell` package is not under `src/`; per §3 the
style flags are bold/italic/underline/strikethrough/all-caps/formula-marker,
held in Go as a bitmask queried through `Cell.HasFlag` and `Cell.IsFormula`.
The bitmask is modelled as a record of booleans, one per flag. -/
structure CellFlags where
  bold : Bool
  italic : Bool
  underline : Bool
  strikethrough : Bool
  allCaps : Bool
  formula : Bool
deriving DecidableEq, Repr

/-- A `CellFlags` value with every flag clear (Go `Flags: 0`). -/
def CellFlags.none : CellFlags := ⟨false, false, false, false, false, false⟩

/-- Modelled from the spec: the `cell` package is not under `src/`. Fields are
taken from §3 of the spec and from the field accesses in the `src/` callers
(`table.go`, `indel.go`, `save.go`, `open.go` (`src/unnamed/part_004`),
`dataValidationUI.go` (`src/unnamed/part_001`)): identity `(Row, Column)`,
raw/display text, a value-kind tag (Go field `Type`, here `CellType` since
`Type` is reserved in Lean), notes, validation rule and message,
foreground/background colors, alignment, width/format parameters, style flags
and the two dependency reference lists. Pointer-valued Go fields are `Option`. -/
structure Cell where
  Row : Int
  Column : Int
  MaxWidth : Int
  MinWidth : Int
  RawValue : Option String
  Display : Option String
  CellType : Option String
  Notes : Option String
  Valrule : Option String
  Valrulemsg : Option String
  Color : RGB
  BgColor : RGB
  DecimalPoints : Int
  ThousandsSeparator : Char
  DecimalSeparator : Char
  FinancialSign : Char
  DateTimeFormat : Option String
  Align : Int
  Flags : CellFlags
  DependsOn : Option (List String)
  Dependents : Option (List String)
deriving DecidableEq, Repr

/-- Go `Cell.IsFormula` of the absent `cell` package: tests the formula-marker
style flag (spec §Glossary: a formula is "identified by a marker flag"). -/
def Cell.IsFormula (c : Cell) : Bool := c.Flags.formula

/-- Modelled from the spec: `utils.Viewport` is not under `src/`; per §3 it is
"top row, left column (both ≥1), visible row count, visible column count",
with the field names used by `CleanupDistantCells` and `RenderVisible`. -/
structure Viewport where
  TopRow : Int
  LeftCol : Int
  ViewRows : Int
  ViewCols : Int
deriving DecidableEq, Repr

/-- Go `o != nil && *o != ""` on a `*string` field. -/
def optNonEmpty (o : Option String) : Bool :=
  match o with
  | some s => s ≠ ""
  | none => false

/-- Go `isEmptyCell` (table.go lines 105-129), translated check for check in
source order: raw value, formula marker, notes, the bold/italic/underline
flags, validation rule, foreground color vs (255,255,255), background color
vs (0,0,0). -/
def isEmptyCell (c : Cell) : Bool :=
  if optNonEmpty c.RawValue then false
  else if c.IsFormula then false
  else if optNonEmpty c.Notes then false
  else if c.Flags.bold || c.Flags.italic || c.Flags.underline then false
  else if optNonEmpty c.Valrule then false
  else if c.Color ≠ colorWhite then false
  else if c.BgColor ≠ colorBlack then false
  else true

/-- The cell store: Go `map[[2]int]*cell.Cell`, keyed by (row, column). -/
abbrev Store := List ((Int × Int) × Cell)

/-- The deletion test of `CleanupDistantCells` (table.go lines 87-102): the
key lies outside the retention box around the viewport. -/
def outsideRetention (vp : Viewport) (keepDistance : Int) (key : Int × Int) : Bool :=
  let minRow := max 1 (vp.TopRow - keepDistance)
  let maxRow := vp.TopRow + vp.ViewRows + keepDistance
  let minCol := max 1 (vp.LeftCol - keepDistance)
  let maxCol := vp.LeftCol + vp.ViewCols + keepDistance
  key.1 < minRow || key.1 > maxRow || key.2 < minCol || key.2 > maxCol

/-- Go `CleanupDistantCells` (table.go lines 87-102): deletes every stored entry
whose key is outside the retention box and whose cell `isEmptyCell` judges
empty. Deleting from a Go map during range iteration removes exactly those
entries, i.e. the surviving store is a filter of the original entries. -/
def CleanupDistantCells (data : Store) (vp : Viewport) (keepDistance : Int) : Store :=
  data.filter fun kv => !(outsideRetention vp keepDistance kv.1 && isEmptyCell kv.2)

/-- The store rebuild of `insertCol` (indel.go lines 153-193): entries with
key column < `col` are kept; every other entry moves to key column + 1 and has
its `Column` attribute incremented. -/
def insertColCore (col : Int) (data : Store) : Store :=
  data.map fun kv =>
    if kv.1.2 < col then kv
    else ((kv.1.1, kv.1.2 + 1), { kv.2 with Column := kv.2.Column + 1 })

/-- The store rebuild of `insertRow` (indel.go lines 195-235): entries with
key row < `row` are kept; every other entry moves to key row + 1 and has its
`Row` attribute incremented. -/
def insertRowCore (row : Int) (data : Store) : Store :=
  data.map fun kv =>
    if kv.1.1 < row then kv
    else ((kv.1.1 + 1, kv.1.2), { kv.2 with Row := kv.2.Row + 1 })

/-- The store rebuild of `eliminateCol` (indel.go lines 41-88): entries with
key column < `col` are kept, entries with key column > `col` move to key
column - 1 with their `Column` attribute decremented, and entries exactly at
`col` are dropped. -/
def eliminateColCore (col : Int) (data : Store) : Store :=
  data.filterMap fun kv =>
    if kv.1.2 < col then some kv
    else if kv.1.2 > col then
      some ((kv.1.1, kv.1.2 - 1), { kv.2 with Column := kv.2.Column - 1 })
    else none

/-- The store rebuild of `eliminateRow` (indel.go lines 90-130): entries with
key row < `row` are kept, entries with key row > `row` move to key row - 1
with their `Row` attribute decremented, and entries exactly at `row` are
dropped. -/
def eliminateRowCore (row : Int) (data : Store) : Store :=
  data.filterMap fun kv =>
    if kv.1.1 < row then some kv
    else if kv.1.1 > row then
      some ((kv.1.1 - 1, kv.1.2), { kv.2 with Row := kv.2.Row - 1 })
    else none

/-- A blank cell at (row, col): the record built by `cell.NewCell` with empty
text, default colors, no flags, as constructed in `openTxtFile`
(src/unnamed/part_004 lines 224-250) but with empty raw text. -/
def blankCell (row col : Int) : Cell :=
  { Row := row, Column := col, MaxWidth := 15, MinWidth := 5,
    RawValue := some "", Display := some "", CellType := some "string",
    Notes := some "", Valrule := some "", Valrulemsg := some "",
    Color := colorWhite, BgColor := colorBlack,
    DecimalPoints := 2, ThousandsSeparator := ',', DecimalSeparator := '.',
    FinancialSign := '$', DateTimeFormat := some "auto", Align := 0,
    Flags := CellFlags.none, DependsOn := some [], Dependents := some [] }

/-! Section: Evaluator values and numeric coercion (govaluatefunc.go) -/

/-- A dynamic Go value as seen by the evaluator's function library: the
`any`-typed arguments are `float64`, `int`, `string` or `bool` (the cases of
the type switches in `toString` and `toFloat`, govaluatefunc.go lines 22-57).
`float64` is modelled as `ℚ`. -/
inductive GoValue where
  | num (x : ℚ)
  | int (n : Int)
  | str (s : String)
  | boolean (b : Bool)
deriving DecidableEq, Repr

/-- Decimal digit character for `d < 10`. -/
def digitChar (d : Nat) : Char := Char.ofNat (48 + d)

/-- Decimal digits of a natural number, most significant first (`fuel`-bounded
recursion; `fuel = n + 1` suffices). -/
def natDigitsAux : Nat → Nat → List Char
  | 0, _ => []
  | fuel + 1, n => if n < 10 then [digitChar n] else natDigitsAux fuel (n / 10) ++ [digitChar (n % 10)]

/-- Decimal string of a natural number. -/
def natToString (n : Nat) : String := String.mk (natDigitsAux (n + 1) n)

/-- Decimal string of an integer (Go `fmt.Sprintf("%d", ...)`). -/
def intToString (i : Int) : String :=
  if i < 0 then "-" ++ natToString i.natAbs else natToString i.toNat

/-- Fractional decimal digits of `num/den` (`num < den`), stopping at the
first exact remainder or after `fuel` digits. Models the digits Go's `%v`
prints for a fraction; a float64's shortest decimal representation is finite,
so for values arising from floats the expansion terminates. -/
def fracDigitsAux : Nat → Nat → Nat → List Char
  | 0, _, _ => []
  | _, 0, _ => []
  | fuel + 1, num, den =>
    digitChar (num * 10 / den) :: fracDigitsAux fuel (num * 10 % den) den

/-- Go `toString` on a float64 (govaluatefunc.go lines 26-30): an integral value
prints as `fmt.Sprintf("%d", int64(val))`, otherwise `%v` prints sign,
integer part and fractional digits. -/
def formatFloat (x : ℚ) : String :=
  if x.den = 1 then intToString x.num
  else
    (if x < 0 then "-" else "") ++ natToString (x.num.natAbs / x.den) ++ "." ++
      String.mk (fracDigitsAux 30 (x.num.natAbs % x.den) x.den)

/-- Go `toString` (govaluatefunc.go lines 22-41): string passes through, float64
via `formatFloat`, int via `%d`, bool as `TRUE`/`FALSE`. -/
def goToString (v : GoValue) : String :=
  match v with
  | .str s => s
  | .num x => formatFloat x
  | .int n => intToString n
  | .boolean b => if b then "TRUE" else "FALSE"

/-- Go's whitespace test for scanning/trimming (space, tab, newline, carriage
return, vertical tab, form feed). -/
def isSpaceChar (c : Char) : Bool :=
  c = ' ' || c = '\t' || c = '\n' || c = '\r' || c = '\x0b' || c = '\x0c'

/-- Numeric value of a list of decimal digit characters. -/
def digitsToNat (l : List Char) : Nat :=
  l.foldl (fun n c => 10 * n + (c.toNat - 48)) 0

/-- The float token scanner behind `fmt.Sscanf(val, "%f", &f)`
(govaluatefunc.go line 52): skip leading spaces, optional sign, decimal
digits with optional fractional part, optional `e`/`E` exponent; characters
after the token are ignored, and a token with no digits (or a dangling
exponent marker) is a scan error (`none`). Special forms (`Inf`, `NaN`, hex
floats) are outside this rational model. -/
def parseSscanfFloat (s : String) : Option ℚ :=
  let l := s.data.dropWhile isSpaceChar
  let sign : ℚ := if l.head? = some '-' then -1 else 1
  let l := if l.head? = some '-' || l.head? = some '+' then l.tail else l
  let intPart := l.takeWhile Char.isDigit
  let l := l.dropWhile Char.isDigit
  let fracPart := if l.head? = some '.' then l.tail.takeWhile Char.isDigit else []
  let l := if l.head? = some '.' then l.tail.dropWhile Char.isDigit else l
  if intPart = [] ∧ fracPart = [] then none
  else
    let base : ℚ :=
      sign * (digitsToNat (intPart ++ fracPart) : ℚ) / (10 : ℚ) ^ fracPart.length
    if l.head? = some 'e' ∨ l.head? = some 'E' then
      let t := l.tail
      let esign : Int := if t.head? = some '-' then -1 else 1
      let t := if t.head? = some '-' || t.head? = some '+' then t.tail else t
      let expDigits := t.takeWhile Char.isDigit
      if expDigits = [] then none
      else some (base * (10 : ℚ) ^ (esign * (digitsToNat expDigits : Int)))
    else some base

/-- Go `strconv.ParseFloat(s, 64)` (used by `CheckValidationRule`): like the
`%f` token scan but with no leading-whitespace skip and the whole string must
be consumed. Special forms (`Inf`, `NaN`, hex floats) are outside this
rational model. -/
def parseFloatFull (s : String) : Option ℚ :=
  let l := s.data
  let sign : ℚ := if l.head? = some '-' then -1 else 1
  let l := if l.head? = some '-' || l.head? = some '+' then l.tail else l
  let intPart := l.takeWhile Char.isDigit
  let l := l.dropWhile Char.isDigit
  let fracPart := if l.head? = some '.' then l.tail.takeWhile Char.isDigit else []
  let l := if l.head? = some '.' then l.tail.dropWhile Char.isDigit else l
  if intPart = [] ∧ fracPart = [] then none
  else
    let base : ℚ :=
      sign * (digitsToNat (intPart ++ fracPart) : ℚ) / (10 : ℚ) ^ fracPart.length
    if l.head? = some 'e' ∨ l.head? = some 'E' then
      let t := l.tail
      let esign : Int := if t.head? = some '-' then -1 else 1
      let t := if t.head? = some '-' || t.head? = some '+' then t.tail else t
      let expDigits := t.takeWhile Char.isDigit
      if expDigits = [] ∨ t.drop expDigits.length ≠ [] then none
      else some (base * (10 : ℚ) ^ (esign * (digitsToNat expDigits : Int)))
    else if l = [] then some base
    else none

/-- Go `toFloat` (govaluatefunc.go lines 44-57): pass-through for float64 and
int, `Sscanf %f` parse for strings, and the typed error
`cannot convert %T to float64` for every other dynamic type — including
booleans, which have no case of their own. -/
def toFloat (v : GoValue) : Except String ℚ :=
  match v with
  | .num x => .ok x
  | .int n => .ok (n : ℚ)
  | .str s =>
    match parseSscanfFloat s with
    | some f => .ok f
    | none => .error "scan error"
  | .boolean _ => .error "cannot convert bool to float64"

/-! Section: Division-like trigonometric functions (govaluatefunc.go)

`CTAN`, `SEC`, `CSEC` and `CTANH` first compute a denominator with
`math.Tan` / `math.Cos` / `math.Sin` / `math.Tanh`. The IEEE-754
transcendental functions themselves are not modelled; each embedded function
takes the already-computed denominator (a real value, as `ℚ`) and captures the
guard-and-reciprocal logic that follows, which is what the claim describes. -/

/-- Result of a division-like function: either a plain value, or the Go pair
`(math.Inf(...), division-by-zero error)` — an error reported together with
an infinite sentinel value. -/
inductive TrigResult where
  | val (x : ℚ)
  | infWithError
deriving DecidableEq, Repr

/-- The epsilon `1e-10` of `CTAN`. -/
def trigEps : ℚ := 1 / 10000000000

/-- Go `CTAN` (govaluatefunc.go lines 108-121) after `tanVal := math.Tan(f)`:
if `math.Abs(tanVal) < 1e-10` return `(math.Inf(1), error)`, else `1/tanVal`. -/
def CTAN (tanVal : ℚ) : TrigResult :=
  if |tanVal| < trigEps then .infWithError else .val (1 / tanVal)

/-- Go `SEC` (govaluatefunc.go lines 180-192) after computing `math.Cos(f)`:
if `math.Cos(f) == 0` return `(math.Inf(0), error)`, else `1/math.Cos(f)`. -/
def SEC (cosVal : ℚ) : TrigResult :=
  if cosVal = 0 then .infWithError else .val (1 / cosVal)

/-- Go `CSEC` (govaluatefunc.go lines 193-205) after computing `math.Sin(f)`:
if `math.Sin(f) == 0` return `(math.Inf(0), error)`, else `1/math.Sin(f)`. -/
def CSEC (sinVal : ℚ) : TrigResult :=
  if sinVal = 0 then .infWithError else .val (1 / sinVal)

/-- Go `CTANH` (govaluatefunc.go lines 280-292) after computing `math.Tanh(f)`:
if `math.Tanh(f) == 0` return `(math.Inf(0), error)`, else `1/math.Tanh(f)`. -/
def CTANH (tanhVal : ℚ) : TrigResult :=
  if tanhVal = 0 then .infWithError else .val (1 / tanhVal)

/-! Section: String-position functions (govaluatefunc.go)

Go strings are UTF-8 byte sequences: `len(s)` and `s[i:]` are byte-based,
`[]rune(s)` converts to code points. Lean `String` is a code-point sequence,
so the byte view is made explicit by UTF-8 encoding. -/

/-- UTF-8 encoding of one code point. -/
def charUtf8Bytes (c : Char) : List Nat :=
  let n := c.toNat
  if n < 128 then [n]
  else if n < 2048 then [192 + n / 64, 128 + n % 64]
  else if n < 65536 then [224 + n / 4096, 128 + n / 64 % 64, 128 + n % 64]
  else [240 + n / 262144, 128 + n / 4096 % 64, 128 + n / 64 % 64, 128 + n % 64]

/-- The UTF-8 bytes of a string — what a Go `string` is. -/
def strBytes (s : String) : List Nat := (s.data.map charUtf8Bytes).flatten

/-- Go `LEN` (govaluatefunc.go lines 806-811): `float64(len(toString(args[0])))`,
i.e. the number of UTF-8 bytes of the string form of the argument. -/
def GoLEN (v : GoValue) : Nat := (strBytes (goToString v)).length

/-- Go `strings.Index` on byte sequences: the first byte offset where `sub`
occurs in `hay`, or `-1`. -/
def goStringIndex (hay sub : List Nat) : Int :=
  if sub.isPrefixOf hay then 0
  else
    match hay with
    | [] => -1
    | _ :: t =>
      let r := goStringIndex t sub
      if r = -1 then -1 else r + 1

/-- Go `FIND` (govaluatefunc.go lines 753-778) on string arguments, with the
start position already coerced to `int` (it defaults to 1): reject
`startPos < 1`; return `-1` when `startPos` exceeds the byte length of
`withinText`; otherwise search `withinText[startPos-1:]` (a byte slice) with
`strings.Index` and return the byte-based 1-based position `pos + startPos`
as a float64. -/
def GoFIND (findText withinText : String) (startPos : Int) : Except String ℚ :=
  if startPos < 1 then .error "start position must be >= 1"
  else if startPos > (strBytes withinText).length then .ok (-1)
  else
    let pos := goStringIndex ((strBytes withinText).drop (startPos - 1).toNat) (strBytes findText)
    if pos = -1 then .ok (-1) else .ok ((pos + startPos : Int) : ℚ)

/-- Go `MID` (govaluatefunc.go lines 704-727) on a string argument, with start
and length already coerced to `int`: `runes := []rune(text)` (code points),
`startIdx := int(start) - 1` clamped below at 0; if `startIdx+n` exceeds the
rune count return `runes[startIdx:]`, else `runes[startIdx : startIdx+n]`.
(Go panics when a slice bound is negative or past the end; the model
saturates instead, and the theorems stay inside the panic-free domain.) -/
def GoMID (text : String) (start n : Int) : String :=
  let runes := text.data
  let startIdx : Int := if start - 1 < 0 then 0 else start - 1
  if startIdx + n > runes.length then String.mk (runes.drop startIdx.toNat)
  else String.mk ((runes.drop startIdx.toNat).take ((startIdx + n).toNat - startIdx.toNat))

/-! Section: Shared Go string helpers -/

/-- Go `strings.TrimSpace`: drop whitespace from both ends. -/
def trimSpace (s : String) : String :=
  String.mk (((s.data.dropWhile isSpaceChar).reverse.dropWhile isSpaceChar).reverse)

/-- Go `strings.ToUpper` (ASCII model). -/
def toUpperGo (s : String) : String := String.mk (s.data.map Char.toUpper)

/-- Go `strings.ToLower` (ASCII model). -/
def toLowerGo (s : String) : String := String.mk (s.data.map Char.toLower)

/-- Go `strings.ReplaceAll` on character lists, for a non-empty pattern:
replace non-overlapping occurrences left to right (`fuel`-bounded recursion;
`fuel = l.length + 1` suffices). -/
def replaceAllAux : Nat → List Char → List Char → List Char → List Char
  | 0, l, _, _ => l
  | fuel + 1, l, pat, rep =>
    if pat.isPrefixOf l ∧ pat ≠ [] then rep ++ replaceAllAux fuel (l.drop pat.length) pat rep
    else
      match l with
      | [] => []
      | c :: t => c :: replaceAllAux fuel t pat rep

/-- Go `strings.ReplaceAll(s, pat, rep)`; the embedded code only uses
non-empty patterns (`THIS`, a separator character, a quote). -/
def goReplaceAll (s pat rep : String) : String :=
  String.mk (replaceAllAux (s.data.length + 1) s.data pat.data rep.data)

/-- Go `strings.TrimPrefix(s, string(c))` for a one-character pattern. -/
def trimPrefixChar (s : String) (c : Char) : String :=
  match s.data with
  | x :: t => if x = c then String.mk t else s
  | [] => s

/-! Section: Persistence round trip (save.go, model.go, open.go) -/

/-- Modelled from the spec: `cell.StripTviewTags` is in the absent `cell`
package. The spec treats a cell's raw text as "the literal entered formula or
value" (§3) and says nothing about terminal markup, so the tag stripper is
modelled as the identity on plain raw text. -/
def StripTviewTags (s : String) : String := s

/-- Modelled from the spec: `utils.ColumnName` is not under `src/`; per §6 the
persisted key is "the spreadsheet-style address (column letters + row number,
e.g. B12)", i.e. bijective base-26 letters: 1 → A, 26 → Z, 27 → AA.
(`fuel`-bounded recursion; `fuel = n` suffices.) -/
def columnNameAux : Nat → Nat → String
  | 0, _ => ""
  | fuel + 1, n =>
    if n = 0 then ""
    else columnNameAux fuel ((n - 1) / 26) ++ String.singleton (Char.ofNat (65 + (n - 1) % 26))

/-- Go `utils.ColumnName` on a positive column index. -/
def ColumnName (n : Int) : String := columnNameAux (n.toNat + 1) n.toNat

/-- Go `CellData` (model.go lines 15-18): the persisted record for one cell —
the cell itself plus the cleaned raw value. -/
structure CellData where
  cell : Cell
  rawValue : String
deriving DecidableEq, Repr

/-- The per-sheet cell serialization of `SaveWorkbook` (save.go lines 47-55):
each stored cell is keyed by `ColumnName(c.Column) + c.Row` and paired with
`StripTviewTags(TrimSpace(*c.RawValue))`. The Go code dereferences
`*c.RawValue`, so a nil raw value is a panic, modelled as `none`. -/
def saveSheetCells (cells : List Cell) : Option (List (String × CellData)) :=
  cells.mapM fun c =>
    c.RawValue.map fun raw =>
      (ColumnName c.Column ++ intToString c.Row,
       ⟨c, StripTviewTags (trimSpace raw)⟩)

/-- The per-record restoration of `processCellData` (open.go /
src/unnamed/part_004 lines 132-175): the cell's `RawValue` is overwritten
with the persisted cleaned raw value, and nil optional fields are filled with
defaults (`Display` with the raw value, `Type` with "string", notes / rule /
message with "", dependency lists with empty lists). -/
def processSavedCell (sc : CellData) : Cell :=
  let c := sc.cell
  { c with
    RawValue := some sc.rawValue,
    Display := match c.Display with | none => some sc.rawValue | d => d,
    CellType := match c.CellType with | none => some "string" | t => t,
    Notes := match c.Notes with | none => some "" | v => v,
    Valrule := match c.Valrule with | none => some "" | v => v,
    Valrulemsg := match c.Valrulemsg with | none => some "" | v => v,
    DependsOn := match c.DependsOn with | none => some [] | v => v,
    Dependents := match c.Dependents with | none => some [] | v => v }

/-- Go `processCellData` over the persisted cell map. -/
def processCellData (m : List (String × CellData)) : List Cell :=
  m.map fun kv => processSavedCell kv.2

/-- The save-then-open composition for one sheet's cells. Modelled from the
spec: §1 places the on-disk codecs (JSON + gzip) out of scope, so writing the
`Cells` map with `SaveWorkbook` and decoding it again in `OpenWorkbook` is
modelled as handing the saved records unchanged to `processCellData`. -/
def saveThenOpenCells (cells : List Cell) : Option (List Cell) :=
  (saveSheetCells cells).map processCellData

/-! Section: Validation rules (dataValidationUI.go, src/unnamed/part_001) -/

/-- Outcome of building and evaluating a govaluate expression: a parse error
from `NewEvaluableExpressionWithFunctions`, an evaluation error from
`Evaluate`, or a dynamic result value. -/
inductive EvalOutcome where
  | parseErr (msg : String)
  | evalErr (msg : String)
  | value (v : GoValue)

/-- The govaluate library (third-party, absent from `src/`) abstracted as an
oracle from the substituted rule text to an outcome. -/
abbrev GovalOracle := String → EvalOutcome

/-- Go `o != nil && strings.TrimSpace(*o) != ""`. -/
def optTrimNonEmpty (o : Option String) : Bool :=
  match o with
  | some s => trimSpace s ≠ ""
  | none => false

/-- The stages `CheckValidationRule` can reach before consulting govaluate. -/
inductive PrepResult where
  | pass
  | numErr
  | panicNil
  | eval (substituted : String)
deriving DecidableEq

/-- The straight-line prefix of `CheckValidationRule`
(src/unnamed/part_001 lines 302-344): pass when the rule is absent or blank,
pass when the trimmed candidate value is empty, panic on a nil `Type`,
coerce the candidate per the cell type (number/financial: strip thousands
separators, trim the financial sign, `strconv.ParseFloat`; otherwise the
string itself), then substitute the formatted candidate for every `THIS` in
the upper-cased trimmed rule. -/
def checkPrepare (c : Cell) (newValue : String) : PrepResult :=
  if ! optTrimNonEmpty c.Valrule then .pass
  else if trimSpace newValue = "" then .pass
  else
    match c.CellType with
    | none => .panicNil
    | some ty =>
      let testValue : Option GoValue :=
        if toLowerGo ty = "number" ∨ toLowerGo ty = "financial" then
          let normalized := goReplaceAll newValue (String.mk [c.ThousandsSeparator]) ""
          let normalized := trimPrefixChar normalized c.FinancialSign
          match parseFloatFull normalized with
          | some num => some (.num num)
          | none => none
        else some (.str newValue)
      match testValue with
      | none => .numErr
      | some tv =>
        let rule := trimSpace (c.Valrule.getD "")
        let upperRule := toUpperGo rule
        let replacementValue :=
          match tv with
          | .num x => formatFloat x
          | v =>
            let strValue := goReplaceAll (goToString v) "\"" "\\\""
            "\"" ++ strValue ++ "\""
        .eval (goReplaceAll upperRule "THIS" replacementValue)

/-- Go `CheckValidationRule` (src/unnamed/part_001 lines 302-369): the prefix
above, then govaluate; a parse error, an evaluation error, a non-boolean
result and a false result each reject the value with the corresponding
message, and only a boolean `true` passes. -/
def CheckValidationRule (oracle : GovalOracle) (c : Cell) (newValue : String) :
    Option (Bool × String) :=
  match checkPrepare c newValue with
  | .pass => some (true, "")
  | .numErr => some (false, "Value must be a number")
  | .panicNil => none
  | .eval sub =>
    match oracle sub with
    | .parseErr msg => some (false, "Invalid validation rule: " ++ msg)
    | .evalErr msg => some (false, "Validation error: " ++ msg)
    | .value v =>
      match v with
      | .boolean true => some (true, "")
      | .boolean false =>
        some (false,
          match c.Valrulemsg with
          | some m =>
            if trimSpace m ≠ "" then m
            else "Value does not meet validation rule: " ++ c.Valrule.getD ""
          | none => "Value does not meet validation rule: " ++ c.Valrule.getD "")
      | _ => some (false, "Validation rule must return true/false")

/-- Go `EnforceValidationOnEdit` (src/unnamed/part_001 lines 254-284): an empty
or whitespace-only new value is accepted before any rule check; otherwise the
edit is accepted exactly when `CheckValidationRule` passes (the modal shown on
failure is presentation only). -/
def EnforceValidationOnEdit (oracle : GovalOracle) (c : Cell) (newValue : String) :
    Option Bool :=
  if trimSpace newValue = "" then some true
  else (CheckValidationRule oracle c newValue).map (·.1)

/-! Section: theorems checking the claims -/

/-- The helper `optNonEmpty` is false exactly on absent or empty strings. -/
lemma optNonEmpty_false_iff (o : Option String) :
    optNonEmpty o = false ↔ (o = none ∨ o = some "") := by
  rcases o with _ | s <;> simp [optNonEmpty]

/-- Boolean-level characterization of `isEmptyCell`. -/
lemma isEmptyCell_bool_iff (c : Cell) :
    isEmptyCell c = true ↔
      optNonEmpty c.RawValue = false ∧ c.Flags.formula = false ∧
      optNonEmpty c.Notes = false ∧ c.Flags.bold = false ∧
      c.Flags.italic = false ∧ c.Flags.underline = false ∧
      optNonEmpty c.Valrule = false ∧ c.Color = colorWhite ∧
      c.BgColor = colorBlack := by
  unfold isEmptyCell Cell.IsFormula
  split_ifs with h1 h2 h3 h4 h5 h6 h7 <;> simp_all
  intros
  simp_all

/-- Propositional characterization of `isEmptyCell`. -/
lemma isEmptyCell_true_iff (c : Cell) :
    isEmptyCell c = true ↔
      (c.RawValue = none ∨ c.RawValue = some "") ∧ c.Flags.formula = false ∧
      (c.Notes = none ∨ c.Notes = some "") ∧ c.Flags.bold = false ∧
      c.Flags.italic = false ∧ c.Flags.underline = false ∧
      (c.Valrule = none ∨ c.Valrule = some "") ∧ c.Color = colorWhite ∧
      c.BgColor = colorBlack := by
  rw [isEmptyCell_bool_iff, optNonEmpty_false_iff, optNonEmpty_false_iff,
    optNonEmpty_false_iff]

/-- Propositional characterization of `outsideRetention`. -/
lemma outsideRetention_true_iff (vp : Viewport) (keep : Int) (key : Int × Int) :
    outsideRetention vp keep key = true ↔
      (key.1 < max 1 (vp.TopRow - keep) ∨ key.1 > vp.TopRow + vp.ViewRows + keep ∨
       key.2 < max 1 (vp.LeftCol - keep) ∨ key.2 > vp.LeftCol + vp.ViewCols + keep) := by
  simp only [outsideRetention, Bool.or_eq_true, decide_eq_true_eq]
  tauto

/-- C2: eviction never removes a cell with non-empty raw text, a formula
marker, a non-empty note, or a non-empty validation rule: such a cell is
still in the store after `CleanupDistantCells`, for every store, viewport and
retention distance, regardless of how far it lies from the viewport. -/
theorem cleanup_never_evicts_meaningful_cells
    (data : Store) (vp : Viewport) (keep : Int) (e : (Int × Int) × Cell)
    (he : e ∈ data)
    (hm : optNonEmpty e.2.RawValue = true ∨ e.2.IsFormula = true ∨
          optNonEmpty e.2.Notes = true ∨ optNonEmpty e.2.Valrule = true) :
    e ∈ CleanupDistantCells data vp keep := by
  have hempty : isEmptyCell e.2 = false := by
    rw [Bool.eq_false_iff]
    intro h
    rw [isEmptyCell_true_iff] at h
    rcases hm with hm | hm | hm | hm <;>
      simp only [optNonEmpty, Cell.IsFormula] at hm <;> rcases h with ⟨h1, h2, h3, -, -, -, h7, -⟩
    · rcases h1 with h1 | h1 <;> simp [h1] at hm
    · simp [h2] at hm
    · rcases h3 with h3 | h3 <;> simp [h3] at hm
    · rcases h7 with h7 | h7 <;> simp [h7] at hm
  exact List.mem_filter.mpr ⟨he, by simp [hempty]⟩

/-- C2 witness: a distant cell with raw text "5" survives a cleanup pass. -/
theorem cleanup_never_evicts_meaningful_cells_witness :
    ((500, 500), { blankCell 500 500 with RawValue := some "5" }) ∈
      CleanupDistantCells [((500, 500), { blankCell 500 500 with RawValue := some "5" })]
        ⟨1, 1, 10, 10⟩ 100 :=
  cleanup_never_evicts_meaningful_cells _ _ _ _ (by decide) (by decide)

/-- C3 counterexample: a cell whose only non-default state is the
strikethrough style flag, far outside the viewport, is deleted by
`CleanupDistantCells` even though the claim's emptiness test ("no non-default
style flags") classifies it as non-empty and hence not removable. -/
theorem cleanup_deletes_strikethrough_only_cell :
    CleanupDistantCells
        [((500, 500), { blankCell 500 500 with
            RawValue := none, Notes := none, Valrule := none,
            Flags := { CellFlags.none with strikethrough := true } })]
        ⟨1, 1, 10, 10⟩ 100 = [] ∧
      ({ blankCell 500 500 with
            RawValue := none, Notes := none, Valrule := none,
            Flags := { CellFlags.none with strikethrough := true } }).Flags.strikethrough
        = true := by
  constructor
  · decide
  · rfl

/-- C3 amended: a stored cell is deleted by `CleanupDistantCells` iff its key
falls outside the code's retention box — rows `[max 1 (top − margin),
top + viewRows + margin]`, columns `[max 1 (left − margin),
left + viewCols + margin]` — and the cell has no raw value, is not a formula,
has no note, has none of the bold/italic/underline flags (strikethrough and
all-caps are NOT consulted), no validation rule, and default
foreground/background colors. -/
theorem cleanup_removes_iff_outside_and_empty
    (data : Store) (vp : Viewport) (keep : Int) (e : (Int × Int) × Cell)
    (he : e ∈ data) :
    e ∈ CleanupDistantCells data vp keep ↔
      ¬ ((e.1.1 < max 1 (vp.TopRow - keep) ∨ e.1.1 > vp.TopRow + vp.ViewRows + keep ∨
          e.1.2 < max 1 (vp.LeftCol - keep) ∨ e.1.2 > vp.LeftCol + vp.ViewCols + keep) ∧
         ((e.2.RawValue = none ∨ e.2.RawValue = some "") ∧ e.2.Flags.formula = false ∧
          (e.2.Notes = none ∨ e.2.Notes = some "") ∧ e.2.Flags.bold = false ∧
          e.2.Flags.italic = false ∧ e.2.Flags.underline = false ∧
          (e.2.Valrule = none ∨ e.2.Valrule = some "") ∧ e.2.Color = colorWhite ∧
          e.2.BgColor = colorBlack)) := by
  rw [CleanupDistantCells, List.mem_filter, ← outsideRetention_true_iff vp keep e.1,
    ← isEmptyCell_true_iff e.2]
  constructor
  · rintro ⟨-, h⟩
    rintro ⟨h1, h2⟩
    rw [h1, h2] at h
    simp at h
  · intro h
    refine ⟨he, ?_⟩
    rcases ho : outsideRetention vp keep e.1 with _ | _ <;>
      rcases hi : isEmptyCell e.2 with _ | _ <;> simp_all

/-- C3 amended witness: a blank distant cell is evicted. -/
theorem cleanup_removes_iff_outside_and_empty_witness :
    ((500, 500), blankCell 500 500) ∉
      CleanupDistantCells [((500, 500), blankCell 500 500)] ⟨1, 1, 10, 10⟩ 100 := by
  rw [cleanup_removes_iff_outside_and_empty _ _ _ _ (by decide)]
  decide

/-- C4: inserting a column before column `col` (resp. a row before row `row`)
re-keys every stored cell on the far side of the edit point: a cell keyed at
column ≥ `col` reappears at key column + 1 with its `Column` attribute equal
to the new key column, a cell keyed at column < `col` is kept with key and
attributes unchanged, everything in the new store arises in one of these two
ways, and the analogous statements hold for `insertRowCore` with `Row`.
(The hypothesis `hk` is the store invariant that each cell's `Row`/`Column`
attributes match its map key.) -/
theorem insert_rekeys_far_side (col row : Int) (data : Store)
    (hk : ∀ e ∈ data, e.1 = (e.2.Row, e.2.Column)) :
    (∀ e ∈ data, e.1.2 < col → e ∈ insertColCore col data) ∧
    (∀ e ∈ data, col ≤ e.1.2 →
      ((e.1.1, e.1.2 + 1), { e.2 with Column := e.2.Column + 1 }) ∈ insertColCore col data ∧
      ({ e.2 with Column := e.2.Column + 1 }).Column = e.1.2 + 1) ∧
    (∀ e2 ∈ insertColCore col data, ∃ e ∈ data,
      (e.1.2 < col ∧ e2 = e) ∨
      (col ≤ e.1.2 ∧ e2 = ((e.1.1, e.1.2 + 1), { e.2 with Column := e.2.Column + 1 }))) ∧
    (∀ e ∈ data, e.1.1 < row → e ∈ insertRowCore row data) ∧
    (∀ e ∈ data, row ≤ e.1.1 →
      ((e.1.1 + 1, e.1.2), { e.2 with Row := e.2.Row + 1 }) ∈ insertRowCore row data ∧
      ({ e.2 with Row := e.2.Row + 1 }).Row = e.1.1 + 1) ∧
    (∀ e2 ∈ insertRowCore row data, ∃ e ∈ data,
      (e.1.1 < row ∧ e2 = e) ∨
      (row ≤ e.1.1 ∧ e2 = ((e.1.1 + 1, e.1.2), { e.2 with Row := e.2.Row + 1 }))) := by
  refine ⟨?_, ?_, ?_, ?_, ?_, ?_⟩
  · intro e he h
    exact List.mem_map.mpr ⟨e, he, by simp [h]⟩
  · intro e he h
    refine ⟨List.mem_map.mpr ⟨e, he, by simp [not_lt.mpr h]⟩, ?_⟩
    have := hk e he
    simp only [Prod.ext_iff] at this
    simp [this.2]
  · intro e2 h2
    obtain ⟨a, ha, heq⟩ := List.mem_map.mp h2
    by_cases h : a.1.2 < col
    · exact ⟨a, ha, Or.inl ⟨h, by simp [h] at heq; exact heq.symm⟩⟩
    · exact ⟨a, ha, Or.inr ⟨not_lt.mp h, by simp [h] at heq; exact heq.symm⟩⟩
  · intro e he h
    exact List.mem_map.mpr ⟨e, he, by simp [h]⟩
  · intro e he h
    refine ⟨List.mem_map.mpr ⟨e, he, by simp [not_lt.mpr h]⟩, ?_⟩
    have := hk e he
    simp only [Prod.ext_iff] at this
    simp [this.1]
  · intro e2 h2
    obtain ⟨a, ha, heq⟩ := List.mem_map.mp h2
    by_cases h : a.1.1 < row
    · exact ⟨a, ha, Or.inl ⟨h, by simp [h] at heq; exact heq.symm⟩⟩
    · exact ⟨a, ha, Or.inr ⟨not_lt.mp h, by simp [h] at heq; exact heq.symm⟩⟩

/-- C4 witness: insertion before column 3 and row 2 on a two-cell store. -/
theorem insert_rekeys_far_side_witness :
    ((1, 5), blankCell 1 5) ∈ [((1, 5), blankCell 1 5), ((2, 2), blankCell 2 2)] ∧
    ((1, 6), { blankCell 1 5 with Column := (blankCell 1 5).Column + 1 }) ∈
      insertColCore 3 [((1, 5), blankCell 1 5), ((2, 2), blankCell 2 2)] := by
  refine ⟨by decide, ?_⟩
  have h := (insert_rekeys_far_side 3 2 [((1, 5), blankCell 1 5), ((2, 2), blankCell 2 2)]
    (by decide)).2.1 ((1, 5), blankCell 1 5) (by decide) (by decide)
  exact h.1

/-- C5: deleting a column at index `col` (resp. a row at `row`) is the inverse
of insertion: every stored cell keyed strictly beyond the deleted index shifts
down by one with its `Column` (resp. `Row`) attribute equal to the new key,
every cell keyed strictly before the index is kept unchanged, every cell of
the new store arises from a cell not keyed at the deleted index (so cells
exactly at the deleted index are removed), and eliminating right after
inserting at the same index restores the store exactly. -/
theorem eliminate_inverts_insert (col row : Int) (data : Store)
    (hk : ∀ e ∈ data, e.1 = (e.2.Row, e.2.Column)) :
    (∀ e ∈ data, e.1.2 < col → e ∈ eliminateColCore col data) ∧
    (∀ e ∈ data, col < e.1.2 →
      ((e.1.1, e.1.2 - 1), { e.2 with Column := e.2.Column - 1 }) ∈ eliminateColCore col data ∧
      ({ e.2 with Column := e.2.Column - 1 }).Column = e.1.2 - 1) ∧
    (∀ e2 ∈ eliminateColCore col data, ∃ e ∈ data, e.1.2 ≠ col ∧
      ((e.1.2 < col ∧ e2 = e) ∨
       (col < e.1.2 ∧ e2 = ((e.1.1, e.1.2 - 1), { e.2 with Column := e.2.Column - 1 })))) ∧
    eliminateColCore col (insertColCore col data) = data ∧
    (∀ e ∈ data, e.1.1 < row → e ∈ eliminateRowCore row data) ∧
    (∀ e ∈ data, row < e.1.1 →
      ((e.1.1 - 1, e.1.2), { e.2 with Row := e.2.Row - 1 }) ∈ eliminateRowCore row data ∧
      ({ e.2 with Row := e.2.Row - 1 }).Row = e.1.1 - 1) ∧
    (∀ e2 ∈ eliminateRowCore row data, ∃ e ∈ data, e.1.1 ≠ row ∧
      ((e.1.1 < row ∧ e2 = e) ∨
       (row < e.1.1 ∧ e2 = ((e.1.1 - 1, e.1.2), { e.2 with Row := e.2.Row - 1 })))) ∧
    eliminateRowCore row (insertRowCore row data) = data := by
  refine ⟨?_, ?_, ?_, ?_, ?_, ?_, ?_, ?_⟩
  · intro e he h
    exact List.mem_filterMap.mpr ⟨e, he, by simp [h]⟩
  · intro e he h
    refine ⟨List.mem_filterMap.mpr ⟨e, he, by simp [not_lt.mpr h.le, h]⟩, ?_⟩
    have := hk e he
    simp only [Prod.ext_iff] at this
    simp [this.2]
  · intro e2 h2
    obtain ⟨a, ha, heq⟩ := List.mem_filterMap.mp h2
    by_cases h : a.1.2 < col
    · refine ⟨a, ha, h.ne, Or.inl ⟨h, ?_⟩⟩
      simp [h] at heq
      exact heq.symm
    · by_cases h' : col < a.1.2
      · refine ⟨a, ha, h'.ne', Or.inr ⟨h', ?_⟩⟩
        simp [h, h'] at heq
        exact heq.symm
      · simp [h, h'] at heq
  · clear hk
    induction data with
    | nil => rfl
    | cons a t ih =>
      obtain ⟨⟨r, c⟩, cd⟩ := a
      by_cases h : c < col
      · simpa [insertColCore, eliminateColCore, h] using ih
      · have h1 : ¬ c + 1 < col := by omega
        have h2 : col < c + 1 := by omega
        cases cd
        simpa [insertColCore, eliminateColCore, h, h1, h2] using ih
  · intro e he h
    exact List.mem_filterMap.mpr ⟨e, he, by simp [h]⟩
  · intro e he h
    refine ⟨List.mem_filterMap.mpr ⟨e, he, by simp [not_lt.mpr h.le, h]⟩, ?_⟩
    have := hk e he
    simp only [Prod.ext_iff] at this
    simp [this.1]
  · intro e2 h2
    obtain ⟨a, ha, heq⟩ := List.mem_filterMap.mp h2
    by_cases h : a.1.1 < row
    · refine ⟨a, ha, h.ne, Or.inl ⟨h, ?_⟩⟩
      simp [h] at heq
      exact heq.symm
    · by_cases h' : row < a.1.1
      · refine ⟨a, ha, h'.ne', Or.inr ⟨h', ?_⟩⟩
        simp [h, h'] at heq
        exact heq.symm
      · simp [h, h'] at heq
  · clear hk
    induction data with
    | nil => rfl
    | cons a t ih =>
      obtain ⟨⟨r, c⟩, cd⟩ := a
      by_cases h : r < row
      · simpa [insertRowCore, eliminateRowCore, h] using ih
      · have h1 : ¬ r + 1 < row := by omega
        have h2 : row < r + 1 := by omega
        cases cd
        simpa [insertRowCore, eliminateRowCore, h, h1, h2] using ih

/-- C5 witness: deleting column 3 from a three-cell store. -/
theorem eliminate_inverts_insert_witness :
    ((1, 3), { blankCell 1 4 with Column := (blankCell 1 4).Column - 1 }) ∈
      eliminateColCore 3 [((1, 4), blankCell 1 4), ((1, 3), blankCell 1 3),
        ((2, 2), blankCell 2 2)] ∧
    eliminateColCore 3 (insertColCore 3 [((1, 4), blankCell 1 4)]) =
      [((1, 4), blankCell 1 4)] := by
  have h := eliminate_inverts_insert 3 1 [((1, 4), blankCell 1 4), ((1, 3), blankCell 1 3),
    ((2, 2), blankCell 2 2)] (by decide)
  refine ⟨?_, ?_⟩
  · simpa using (h.2.1 ((1, 4), blankCell 1 4) (by decide) (by decide)).1
  · decide

/-- C6 counterexample: `toFloat` on boolean `true` returns the typed error of
the type switch's default case; it does not convert `true` to `1.0` as the
claim states. -/
theorem toFloat_errors_on_boolean :
    toFloat (.boolean true) = .error "cannot convert bool to float64" ∧
    toFloat (.boolean true) ≠ .ok 1 :=
  ⟨rfl, fun h => nomatch h⟩

/-- C6 amended: numeric values (float64 and int) pass through unchanged,
strings are converted by the `Sscanf %f` textual parse, and every other
dynamic type — booleans included — yields the typed conversion error; a
successful conversion only ever arises from one of these three cases, never
from silently substituting zero. -/
theorem toFloat_characterization :
    (∀ x : ℚ, toFloat (.num x) = .ok x) ∧
    (∀ n : Int, toFloat (.int n) = .ok (n : ℚ)) ∧
    (∀ s : String, toFloat (.str s) =
      (match parseSscanfFloat s with
       | some f => .ok f
       | none => .error "scan error")) ∧
    (∀ b : Bool, toFloat (.boolean b) = .error "cannot convert bool to float64") ∧
    (∀ v x, toFloat v = .ok x →
      v = .num x ∨ (∃ n : Int, v = .int n ∧ x = (n : ℚ)) ∨
      (∃ s, v = .str s ∧ parseSscanfFloat s = some x)) := by
  refine ⟨fun x => rfl, fun n => rfl, fun s => rfl, fun b => rfl, ?_⟩
  intro v x h
  cases v with
  | num y =>
    simp only [toFloat, Except.ok.injEq] at h
    exact Or.inl (by rw [h])
  | int n =>
    simp only [toFloat, Except.ok.injEq] at h
    exact Or.inr (Or.inl ⟨n, rfl, h.symm⟩)
  | str s =>
    refine Or.inr (Or.inr ⟨s, rfl, ?_⟩)
    rcases hp : parseSscanfFloat s with _ | f <;> simp only [toFloat, hp] at h
    · exact Except.noConfusion h
    · rw [Except.ok.injEq] at h
      rw [h]
  | boolean b =>
    simp only [toFloat] at h
    exact Except.noConfusion h

/-- C6 amended witness: the only-successes clause at the input `num 5`. -/
theorem toFloat_characterization_witness :
    GoValue.num 5 = .num 5 ∨ (∃ n : Int, GoValue.num 5 = .int n ∧ (5 : ℚ) = (n : ℚ)) ∨
      (∃ s, GoValue.num 5 = .str s ∧ parseSscanfFloat s = some 5) :=
  toFloat_characterization.2.2.2.2 (.num 5) 5 rfl

/-- C7 counterexample: `LEN` on the one-code-point string "é" returns its
UTF-8 byte count 2, not the code-point count 1 the claim requires. -/
theorem len_counts_bytes_not_codepoints :
    GoLEN (.str "é") = 2 ∧ "é".length = 1 ∧ GoLEN (.str "é") ≠ "é".length := by
  refine ⟨by decide, by decide, by decide⟩

/-- The search `goStringIndex` never returns below `-1`. -/
lemma goStringIndex_neg_or_nonneg (hay sub : List Nat) :
    goStringIndex hay sub = -1 ∨ 0 ≤ goStringIndex hay sub := by
  induction hay with
  | nil =>
    rw [goStringIndex]
    split <;> simp
  | cons a t ih =>
    rw [goStringIndex]
    split
    · exact Or.inr le_rfl
    · rcases ih with h | h <;> simp only [h]
      · exact Or.inl rfl
      · rcases eq_or_ne (goStringIndex t sub) (-1) with he | he
        · simp [he]
        · simp only [if_neg he]
          exact Or.inr (by omega)

/-- When `goStringIndex` finds an occurrence, `sub` really occurs at the
returned byte offset. -/
lemma goStringIndex_prefixOf (hay sub : List Nat)
    (h : goStringIndex hay sub ≠ -1) :
    sub.isPrefixOf (hay.drop (goStringIndex hay sub).toNat) = true := by
  induction hay with
  | nil =>
    rw [goStringIndex] at h ⊢
    by_cases hp : sub.isPrefixOf ([] : List Nat) = true
    · rw [if_pos hp]
      simpa using hp
    · rw [if_neg hp] at h
      exact absurd rfl h
  | cons a t ih =>
    rw [goStringIndex] at h ⊢
    by_cases hp : sub.isPrefixOf (a :: t) = true
    · rw [if_pos hp]
      simpa using hp
    · rw [if_neg hp] at h ⊢
      dsimp only at h ⊢
      rcases eq_or_ne (goStringIndex t sub) (-1) with he | he
      · rw [if_pos he] at h
        exact absurd rfl h
      · rw [if_neg he] at h ⊢
        have hnn : 0 ≤ goStringIndex t sub :=
          (goStringIndex_neg_or_nonneg t sub).resolve_left he
        have ht : (goStringIndex t sub + 1).toNat = (goStringIndex t sub).toNat + 1 := by
          omega
        rw [ht, List.drop_succ_cons]
        exact ih he

/-- Flattened byte length equals code-point count when every code point is
one byte. -/
lemma flatten_ascii_length (l : List Char)
    (h : ∀ c ∈ l, (charUtf8Bytes c).length = 1) :
    ((l.map charUtf8Bytes).flatten).length = l.length := by
  induction l with
  | nil => rfl
  | cons c t ih =>
    simp only [List.map_cons, List.flatten_cons, List.length_append, List.length_cons]
    rw [h c (List.mem_cons_self c t), ih fun x hx => h x (List.mem_cons_of_mem c hx)]
    omega

/-- C7 amended: `MID` extracts by 1-based code-point positions (in range it
returns exactly the code-point slice), while `LEN` and `FIND` are byte-based:
`LEN` agrees with the code-point count only when every character encodes to
one UTF-8 byte, and a position returned by `FIND` locates the match in the
UTF-8 byte sequence (1-based byte offset), not the code-point sequence. -/
theorem string_offsets_characterization :
    (∀ (text : String) (start n : Int), 1 ≤ start → 0 ≤ n →
      start - 1 + n ≤ text.length →
      GoMID text start n = String.mk ((text.data.drop (start - 1).toNat).take n.toNat)) ∧
    (∀ s : String, (∀ c ∈ s.data, (charUtf8Bytes c).length = 1) →
      GoLEN (.str s) = s.length) ∧
    (∀ (f w : String) (k : Nat), GoFIND f w 1 = .ok ((k : ℚ) + 1) →
      (strBytes f).isPrefixOf ((strBytes w).drop k) = true) := by
  refine ⟨?_, ?_, ?_⟩
  · intro text start n h1 h0 hle
    rw [GoMID]
    have hs : ¬ start - 1 < 0 := by omega
    simp only [if_neg hs]
    have hlen : text.length = text.data.length := rfl
    rw [if_neg (by omega)]
    congr 2
    omega
  · intro s h
    have : GoLEN (.str s) = (strBytes s).length := rfl
    rw [this, strBytes, flatten_ascii_length s.data h]
    rfl
  · intro f w k h
    rw [GoFIND] at h
    rw [if_neg (by norm_num)] at h
    by_cases hlen : (1 : Int) > (strBytes w).length
    · rw [if_pos hlen] at h
      rw [Except.ok.injEq] at h
      exfalso
      have hk : (0 : ℚ) ≤ (k : ℚ) := Nat.cast_nonneg k
      nlinarith [h]
    · rw [if_neg hlen] at h
      simp only [show ((1 : Int) - 1).toNat = 0 from rfl, List.drop_zero] at h
      rcases eq_or_ne (goStringIndex (strBytes w) (strBytes f)) (-1) with he | he
      · rw [if_pos he, Except.ok.injEq] at h
        exfalso
        have hk : (0 : ℚ) ≤ (k : ℚ) := Nat.cast_nonneg k
        nlinarith [h]
      · rw [if_neg he, Except.ok.injEq] at h
        have hnn : 0 ≤ goStringIndex (strBytes w) (strBytes f) :=
          (goStringIndex_neg_or_nonneg _ _).resolve_left he
        have hik : goStringIndex (strBytes w) (strBytes f) = (k : Int) := by
          have : ((goStringIndex (strBytes w) (strBytes f) + 1 : Int) : ℚ) =
              (((k : Int) + 1 : Int) : ℚ) := by push_cast; push_cast at h; linarith
          have := Int.cast_injective (α := ℚ) this
          omega
        have := goStringIndex_prefixOf (strBytes w) (strBytes f) he
        rw [hik] at this
        simpa using this

/-- C7 amended witness: the three clauses at concrete inputs. -/
theorem string_offsets_characterization_witness :
    GoMID "héllo" 2 3 =
      String.mk ((("héllo").data.drop ((2 : Int) - 1).toNat).take (3 : Int).toNat) ∧
    GoLEN (.str "abc") = "abc".length ∧
    (strBytes "b").isPrefixOf ((strBytes "éb").drop 2) = true := by
  have h := string_offsets_characterization
  refine ⟨h.1 "héllo" 2 3 (by norm_num) (by norm_num) (by decide), h.2.1 "abc" (by decide), ?_⟩
  refine h.2.2 "b" "éb" 2 ?_
  have h3 : goStringIndex (strBytes "éb") (strBytes "b") = 2 := by decide
  have hlen : ¬ (1 : Int) > (strBytes "éb").length := by decide
  rw [GoFIND, if_neg (by norm_num), if_neg hlen]
  simp only [show ((1 : Int) - 1).toNat = 0 from rfl, List.drop_zero, h3]
  norm_num

/-- C8 counterexample: a denominator of absolute value `1e-11`, below the
claimed epsilon `1e-10`, on which `SEC` silently returns the reciprocal
instead of reporting a division-by-zero error (its guard tests exact equality
with zero, not the epsilon). Such denominators are reachable: `math.Cos`
near `π/2` returns tiny non-zero values (about `6.1e-17`). -/
theorem sec_ignores_epsilon_threshold :
    |(1 / 100000000000 : ℚ)| < trigEps ∧
    SEC (1 / 100000000000) = .val 100000000000 := by
  constructor
  · rw [abs_of_pos (by norm_num)]
    simp only [trigEps]
    norm_num
  · rw [SEC, if_neg (by norm_num)]
    have : (1 : ℚ) / (1 / 100000000000) = 100000000000 := by norm_num
    rw [this]

/-- C8 amended: only `CTAN` uses the `1e-10` epsilon guard — it reports the
division error with the infinite sentinel exactly when `|tan| < 1e-10`; the
secant family and `CTANH` report it only when their denominator is exactly
zero and otherwise return the reciprocal without error. -/
theorem division_guards_characterization :
    (∀ t : ℚ, |t| < trigEps → CTAN t = .infWithError) ∧
    (∀ t : ℚ, trigEps ≤ |t| → CTAN t = .val (1 / t)) ∧
    SEC 0 = .infWithError ∧ (∀ x : ℚ, x ≠ 0 → SEC x = .val (1 / x)) ∧
    CSEC 0 = .infWithError ∧ (∀ x : ℚ, x ≠ 0 → CSEC x = .val (1 / x)) ∧
    CTANH 0 = .infWithError ∧ (∀ x : ℚ, x ≠ 0 → CTANH x = .val (1 / x)) := by
  refine ⟨fun t h => by rw [CTAN, if_pos h], fun t h => by rw [CTAN, if_neg (not_lt.mpr h)],
    by rw [SEC, if_pos rfl], fun x h => by rw [SEC, if_neg h],
    by rw [CSEC, if_pos rfl], fun x h => by rw [CSEC, if_neg h],
    by rw [CTANH, if_pos rfl], fun x h => by rw [CTANH, if_neg h]⟩

/-- C8 amended witness: the guards at concrete denominators. -/
theorem division_guards_characterization_witness :
    CTAN 0 = .infWithError ∧ CTAN 1 = .val (1 / 1) ∧
    SEC 1 = .val (1 / 1) ∧ CSEC 1 = .val (1 / 1) ∧ CTANH 1 = .val (1 / 1) := by
  have h := division_guards_characterization
  refine ⟨h.1 0 ?_, h.2.1 1 ?_, h.2.2.2.1 1 one_ne_zero, h.2.2.2.2.2.1 1 one_ne_zero,
    h.2.2.2.2.2.2.2 1 one_ne_zero⟩
  · rw [abs_zero]
    simp only [trigEps]
    norm_num
  · rw [abs_one]
    simp only [trigEps]
    norm_num

/-- C9: whenever `CheckValidationRule` reaches rule evaluation (rule present,
candidate non-blank, coercion successful) and the substituted rule evaluates
to a non-boolean value, the function rejects the value with the
validation-configuration message "Validation rule must return true/false" —
never a silent pass. -/
theorem nonboolean_rule_result_rejects
    (oracle : GovalOracle) (c : Cell) (v sub : String) (w : GoValue)
    (hprep : checkPrepare c v = .eval sub)
    (hval : oracle sub = .value w)
    (hnb : ∀ b, w ≠ .boolean b) :
    CheckValidationRule oracle c v =
      some (false, "Validation rule must return true/false") := by
  simp only [CheckValidationRule, hprep, hval]
  cases w with
  | boolean b => exact absurd rfl (hnb b)
  | num x => rfl
  | int n => rfl
  | str s => rfl

/-- C9 witness: a rule whose substituted form evaluates to the number 5. -/
theorem nonboolean_rule_result_rejects_witness :
    CheckValidationRule (fun _ => .value (.num 5))
      { blankCell 1 1 with Valrule := some "THIS > 0", CellType := some "string" } "x" =
      some (false, "Validation rule must return true/false") :=
  nonboolean_rule_result_rejects _ _ _ "\"x\" > 0" (.num 5) (by decide) rfl
    (fun b h => nomatch h)

/-- C10: an empty or whitespace-only candidate value always passes: for every
oracle (hence without the rule being evaluated) and every cell — malformed
rules included — `CheckValidationRule` returns a pass and
`EnforceValidationOnEdit` accepts the edit, so validation never blocks
clearing a cell. -/
theorem blank_value_always_passes_validation
    (oracle : GovalOracle) (c : Cell) (v : String)
    (h : trimSpace v = "") :
    CheckValidationRule oracle c v = some (true, "") ∧
    EnforceValidationOnEdit oracle c v = some true := by
  have hprep : checkPrepare c v = .pass := by
    rw [checkPrepare]
    cases hr : optTrimNonEmpty c.Valrule <;> simp [hr, h]
  exact ⟨by simp only [CheckValidationRule, hprep],
    by rw [EnforceValidationOnEdit, if_pos h]⟩

/-- C10 witness: a whitespace-only value against a malformed rule, with an
oracle that would reject everything. -/
theorem blank_value_always_passes_validation_witness :
    CheckValidationRule (fun _ => .parseErr "unexpected token")
      { blankCell 1 1 with Valrule := some "((" } " \t" = some (true, "") ∧
    EnforceValidationOnEdit (fun _ => .parseErr "unexpected token")
      { blankCell 1 1 with Valrule := some "((" } " \t" = some true :=
  blank_value_always_passes_validation _ _ _ (by decide)

/-- C1 counterexample: a cell whose raw text carries surrounding whitespace:
saving and reloading yields raw text `"hi"`, not the original `" hi "` — the
save path stores `StripTviewTags(TrimSpace(raw))`, and `processCellData`
overwrites the cell's raw value with that cleaned string. -/
theorem roundtrip_changes_raw_text :
    (saveThenOpenCells [{ blankCell 2 3 with RawValue := some " hi " }]).map
        (fun l => l.map Cell.RawValue) = some [some "hi"] ∧
    some " hi " ≠ some "hi" :=
  ⟨by decide, by decide⟩

/-- C1 amended: for every sheet whose cells all have a raw value (a nil raw
value makes `SaveWorkbook` panic), saving with `SaveWorkbook` and reloading
with `OpenWorkbook`/`processCellData` yields, cell for cell, the same
coordinates and the same formatting attributes, while the raw text comes back
as `StripTviewTags(TrimSpace(raw))` — identical to the original exactly when
the original was already trimmed and tag-free. -/
theorem saveThenOpen_restores_cells (cells : List Cell)
    (h : ∀ c ∈ cells, c.RawValue ≠ none) :
    ∃ out, saveThenOpenCells cells = some out ∧
      List.Forall₂ (fun c c' =>
        c'.Row = c.Row ∧ c'.Column = c.Column ∧ c'.Align = c.Align ∧
        c'.Color = c.Color ∧ c'.BgColor = c.BgColor ∧ c'.Flags = c.Flags ∧
        c'.DecimalPoints = c.DecimalPoints ∧
        c'.ThousandsSeparator = c.ThousandsSeparator ∧
        c'.DecimalSeparator = c.DecimalSeparator ∧
        c'.FinancialSign = c.FinancialSign ∧
        c'.DateTimeFormat = c.DateTimeFormat ∧
        c'.MaxWidth = c.MaxWidth ∧ c'.MinWidth = c.MinWidth ∧
        c'.RawValue = some (StripTviewTags (trimSpace (c.RawValue.getD ""))))
        cells out := by
  induction cells with
  | nil => exact ⟨[], rfl, List.Forall₂.nil⟩
  | cons c t ih =>
    obtain ⟨out, hout, hf⟩ := ih fun x hx => h x (List.mem_cons_of_mem c hx)
    rcases hs : c.RawValue with _ | s
    · exact absurd hs (h c (List.mem_cons_self c t))
    obtain ⟨saved, hsv, hpc⟩ :
        ∃ saved, saveSheetCells t = some saved ∧ processCellData saved = out := by
      rcases hsv0 : saveSheetCells t with _ | saved
      · rw [saveThenOpenCells, hsv0] at hout
        exact absurd hout (by simp)
      · rw [saveThenOpenCells, hsv0] at hout
        rw [Option.map_some'] at hout
        exact ⟨saved, rfl, Option.some.inj hout⟩
    subst hpc
    refine ⟨processSavedCell ⟨c, StripTviewTags (trimSpace s)⟩ :: processCellData saved, ?_,
      List.Forall₂.cons (by simp [processSavedCell, hs]) hf⟩
    rw [saveSheetCells] at hsv
    simp only [saveThenOpenCells, saveSheetCells, List.mapM_cons, hs, hsv,
      Option.bind_eq_bind, Option.some_bind, Option.pure_def, processCellData, List.map_cons]
    rfl

/-- C1 amended witness: the round trip succeeds on a concrete one-cell
sheet. -/
theorem saveThenOpen_restores_cells_witness :
    (saveThenOpenCells [blankCell 1 2]).isSome = true := by
  obtain ⟨out, hout, -⟩ := saveThenOpen_restores_cells [blankCell 1 2] (by decide)
  rw [hout]
  rfl

end GoSheet
